import Mathlib

/-!
Shallow embedding of the mock verification programs of the `gno`
active-inference repository.

Go `float64` values are modelled as exact rationals (`ℚ`); Go maps
(`map[string]V`) are modelled as association lists with Go's
assignment semantics (`mapInsert`: update in place when the key is
present, append otherwise) and lookup (`lookupKey`).  The transcendental
`math.Log` is modelled as an abstract parameter `log : ℚ → ℚ`, so every
statement proved about entropy and log-probability holds for any
logarithm, in particular the natural one.  A Go method that mutates its
receiver is modelled as a function returning the new receiver state
(paired with the returned error where there is one); a Go panic is
modelled by an `Option` result being `none`.
-/

/-- Go map assignment `m[k] = v` on an association-list model: replace the
first binding of `k` when present, append otherwise. -/
def mapInsert {α : Type} : List (String × α) → String → α → List (String × α)
  | [], k, v => [(k, v)]
  | (k', v') :: rest, k, v =>
      if k' = k then (k, v) :: rest else (k', v') :: mapInsert rest k v

/-- Go map lookup `v, ok := m[k]`: the first binding of `k`, if any. -/
def lookupKey {α : Type} : List (String × α) → String → Option α
  | [], _ => none
  | (k', v') :: rest, k => if k' = k then some v' else lookupKey rest k

namespace ComprehensiveVerify

/-- From `comprehensive_verify.go`: `type Probability float64`. -/
abbrev Probability := ℚ

/-- From `comprehensive_verify.go`: `Probability.Validate` rejects values
outside `[0,1]` (`if p < 0 || p > 1 { return error }; return nil`). -/
def Probability.Validate (p : Probability) : Option String :=
  if p < 0 ∨ p > 1 then some "probability must be between 0 and 1" else none

/-- From `comprehensive_verify.go`: a categorical distribution over the
index set of its probability list. -/
structure Categorical where
  Probs : List Probability
deriving DecidableEq

/-- From `comprehensive_verify.go`: `NewCategorical`. -/
def NewCategorical (probs : List Probability) : Categorical :=
  { Probs := probs }

/-- From `comprehensive_verify.go`: `Categorical.Prob` returns
`Probs[outcome]` when `0 <= outcome < len(Probs)` and `0.0` otherwise. -/
def Prob (c : Categorical) (outcome : ℤ) : Probability :=
  if 0 ≤ outcome ∧ outcome < (c.Probs.length : ℤ) then c.Probs.getD outcome.toNat 0
  else 0

/-- From `comprehensive_verify.go`: `Categorical.LogProb` returns `-1e9`
(a "negative infinity approximation") on zero probability and `log p`
otherwise; `math.Log` is the abstract parameter `log`. -/
def LogProb (log : ℚ → ℚ) (c : Categorical) (outcome : ℤ) : Probability :=
  if Prob c outcome = 0 then -1000000000 else log (Prob c outcome)

/-- From `comprehensive_verify.go`: `Categorical.Entropy` folds
`h -= p * log p` over the strictly positive entries of `Probs`, starting
from `0`; `math.Log` is the abstract parameter `log`. -/
def Entropy (log : ℚ → ℚ) (c : Categorical) : Probability :=
  c.Probs.foldl (fun h p => if 0 < p then h - p * log p else h) 0

/-- From `comprehensive_verify.go`: a Bayesian-network node.  The same
struct appears token-for-token in the simple verification script and in
`verify_examples.go`, so all three embeddings share it. -/
structure Node where
  Name   : String
  States : List String
  CPT    : List (String × List Probability)
deriving DecidableEq

/-- From `comprehensive_verify.go`: `NewNode` starts with an empty CPT. -/
def NewNode (name : String) (states : List String) : Node :=
  { Name := name, States := states, CPT := [] }

/-- The validation loop of `Node.SetCPT`: walk the probabilities keeping a
running sum, returning the first `Validate` error if any entry is out of
range, else the total. -/
def sumLoop : List Probability → ℚ → Except String ℚ
  | [], sum => .ok sum
  | p :: rest, sum =>
      match Probability.Validate p with
      | some err => .error err
      | none => sumLoop rest (sum + p)

/-- From `comprehensive_verify.go`: `Node.SetCPT` rejects a probability
list whose length differs from the number of states, that has an entry
outside `[0,1]`, or whose sum is farther than `1e-6` from `1`; only on
success is the list stored in the CPT (the receiver mutation is modelled
by returning the new node next to the returned error). -/
def SetCPT (n : Node) (parentStates : String) (probabilities : List Probability) :
    Option String × Node :=
  if probabilities.length ≠ n.States.length then
    (some "probabilities length must match number of states", n)
  else
    match sumLoop probabilities 0 with
    | .error err => (some err, n)
    | .ok sum =>
        if |sum - 1| > 1/1000000 then (some "probabilities must sum to 1", n)
        else (none, { n with CPT := mapInsert n.CPT parentStates probabilities })

/-- From `comprehensive_verify.go`: a fixed-capacity working memory
(`Capacity` is a Go `int`, so it may be zero or negative). -/
structure WorkingMemory where
  Capacity : ℤ
  Contents : List (List Probability)
deriving DecidableEq

/-- From `comprehensive_verify.go`: `NewWorkingMemory` starts empty. -/
def NewWorkingMemory (capacity : ℤ) : WorkingMemory :=
  { Capacity := capacity, Contents := [] }

/-- From `comprehensive_verify.go`: `WorkingMemory.AddItem` drops the
oldest item (`Contents = Contents[1:]`) when the memory is full, then
appends.  `Contents[1:]` on an empty slice panics in Go; the panic is
modelled as `none`, and a normal `return nil` as `some` of the new
state. -/
def AddItem (wm : WorkingMemory) (item : List Probability) : Option WorkingMemory :=
  if (wm.Contents.length : ℤ) ≥ wm.Capacity then
    match wm.Contents with
    | [] => none
    | _ :: rest => some { wm with Contents := (rest ++ [item]) }
  else
    some { wm with Contents := wm.Contents ++ [item] }

/-- A sequence of `AddItem` calls, stopping at the first panic. -/
def addAll (wm : WorkingMemory) : List (List Probability) → Option WorkingMemory
  | [] => some wm
  | item :: rest =>
      match AddItem wm item with
      | none => none
      | some wm' => addAll wm' rest

end ComprehensiveVerify

namespace SimpleVerification

/-- From the simple verification script: `type Probability float64`. -/
abbrev Probability := ℚ

/-- From the simple verification script: `Probability.Validate`, the same
range check as in `comprehensive_verify.go`. -/
def Probability.Validate (p : Probability) : Option String :=
  if p < 0 ∨ p > 1 then some "probability must be between 0 and 1" else none

/-- The node struct of the simple verification script, field-identical to
the one in `comprehensive_verify.go`. -/
abbrev Node := ComprehensiveVerify.Node

/-- The validation loop of the simple script's `Node.SetCPT`. -/
def sumLoop : List Probability → ℚ → Except String ℚ
  | [], sum => .ok sum
  | p :: rest, sum =>
      match Probability.Validate p with
      | some err => .error err
      | none => sumLoop rest (sum + p)

/-- From the simple verification script: `Node.SetCPT`, token-for-token
the same validation as in `comprehensive_verify.go`. -/
def SetCPT (n : Node) (parentStates : String) (probabilities : List Probability) :
    Option String × Node :=
  if probabilities.length ≠ n.States.length then
    (some "probabilities length must match number of states", n)
  else
    match sumLoop probabilities 0 with
    | .error err => (some err, n)
    | .ok sum =>
        if |sum - 1| > 1/1000000 then (some "probabilities must sum to 1", n)
        else (none, { n with CPT := mapInsert n.CPT parentStates probabilities })

end SimpleVerification

namespace VerifyExamples

/-- From `verify_examples.go`: `type Probability float64`. -/
abbrev Probability := ℚ

/-- The node struct of `verify_examples.go`, field-identical to the one in
`comprehensive_verify.go`. -/
abbrev Node := ComprehensiveVerify.Node

/-- From `verify_examples.go`: `NewNode` starts with an empty CPT. -/
def NewNode (name : String) (states : List String) : Node :=
  { Name := name, States := states, CPT := [] }

/-- From `verify_examples.go`: `SetCPT` stores the probabilities
unconditionally and returns nil (no validation at all). -/
def SetCPT (n : Node) (parentStates : String) (probabilities : List Probability) :
    Option String × Node :=
  (none, { n with CPT := mapInsert n.CPT parentStates probabilities })

/-- From `verify_examples.go`: a network is a list of nodes. -/
structure BayesianNetwork where
  Nodes : List Node
deriving DecidableEq

/-- From `verify_examples.go`: `NewBayesianNetwork`. -/
def NewBayesianNetwork : BayesianNetwork := { Nodes := [] }

/-- From `verify_examples.go`: `AddNode` appends. -/
def AddNode (bn : BayesianNetwork) (node : Node) : BayesianNetwork :=
  { bn with Nodes := bn.Nodes ++ [node] }

/-- From `verify_examples.go`: the "simplified inference" engine, holding
the network it never actually consults. -/
structure VariableElimination where
  Network : BayesianNetwork
deriving DecidableEq

/-- From `verify_examples.go`: `NewVariableElimination`. -/
def NewVariableElimination (network : BayesianNetwork) : VariableElimination :=
  { Network := network }

/-- Body of the `for queryVar := range query` loop of
`VariableElimination.Query`: only the key `"Flu"` writes to the result
map, and the written pair of values depends only on the evidence. -/
def queryStep (evidence : List (String × String))
    (result : List (String × Probability)) (queryVar : String) :
    List (String × Probability) :=
  if queryVar = "Flu" then
    if lookupKey evidence "Fever" = some "yes" then
      if lookupKey evidence "Cough" = some "yes" then
        mapInsert (mapInsert result "yes" (32/100)) "no" (68/100)
      else
        mapInsert (mapInsert result "yes" (15/100)) "no" (85/100)
    else
      mapInsert (mapInsert result "yes" (5/100)) "no" (95/100)
  else result

/-- From `verify_examples.go`: `VariableElimination.Query`.  The Go code
iterates over the keys of the `query` map (modelled as a list of keys)
starting from an empty result map; the iteration order is immaterial
because only the key `"Flu"` has any effect. -/
def Query (_ve : VariableElimination) (query : List String)
    (evidence : List (String × String)) : List (String × Probability) :=
  query.foldl (queryStep evidence) []

/-- Proof helper: the shape every evidence case of `queryStep` takes, for
a fixed pair of written values. -/
def writePair (x y : ℚ) (result : List (String × Probability)) (queryVar : String) :
    List (String × Probability) :=
  if queryVar = "Flu" then mapInsert (mapInsert result "yes" x) "no" y else result

end VerifyExamples

namespace TestRunner

/-- From the comprehensive test runner: per-module result record
(`Duration` is `time.Duration`, i.e. nanoseconds as an integer). -/
structure TestResult where
  Module   : String
  Passed   : Bool
  Output   : String
  Duration : ℤ
deriving DecidableEq

/-- From the test runner's `main`: the fixed list of test modules. -/
def modules : List String :=
  ["active_inference_core", "advanced_probability", "bayesian_inference",
   "cognitive_modeling", "free_energy_principle", "reinforcement_learning",
   "smart_contracts", "visualization", "probability"]

/-- The pass/fail line `main` prints for one module result. -/
def statusLine (r : TestResult) : String :=
  if r.Passed then "✅ PASSED" else "❌ FAILED"

/-- The pass/fail lines `main` prints, one per module; `runModuleTests`
shells out to `gno test`, so its outcome is the abstract parameter `f`. -/
def statusLines (f : String → TestResult) : List String :=
  (modules.map f).map statusLine

/-- From the test runner's `main`: `passedTests` is incremented once per
module whose result has `Passed` set. -/
def passedTests (f : String → TestResult) : ℕ :=
  (modules.map f).countP (fun r => r.Passed)

/-- From the test runner's `main`: `os.Exit(1)` exactly when
`passedTests != totalTests` (with `totalTests = len(modules)`), normal
termination (status 0) otherwise. -/
def runnerExitCode (f : String → TestResult) : ℕ :=
  if passedTests f = modules.length then 0 else 1

/-- From the test runner's `main`: the success summary is printed exactly
in the all-passed branch. -/
def printsSuccessSummary (f : String → TestResult) : Bool :=
  passedTests f = modules.length

/-- From the test runner: `runSequentialTests` maps `runModuleTests`
(abstracted as `f`) over the modules in order. -/
def runSequentialTests (f : String → TestResult) (mods : List String) :
    List TestResult :=
  mods.map f

/-- From the test runner: `runParallelTests` starts one goroutine per
module, each sending `runModuleTests(mod)` on a channel, and collects
`len(mods)` results.  The nondeterministic channel delivery order is made
explicit as `arrival`, a rearrangement of `mods`: the collected slice is
the per-module results in arrival order. -/
def runParallelTests (f : String → TestResult) (_mods arrival : List String) :
    List TestResult :=
  arrival.map f

end TestRunner


/-! Proof infrastructure: helper lemmas about the embedded functions. -/

namespace VerifyExamples

lemma mapInsert_pair_nil (x y : ℚ) :
    mapInsert (mapInsert ([] : List (String × ℚ)) "yes" x) "no" y = [("yes", x), ("no", y)] := by
  simp [mapInsert]

lemma mapInsert_pair_idem (x y : ℚ) :
    mapInsert (mapInsert [("yes", x), ("no", y)] "yes" x) "no" y = [("yes", x), ("no", y)] := by
  simp [mapInsert]

lemma foldl_writePair_fix (x y : ℚ) (qs : List String) :
    qs.foldl (writePair x y) [("yes", x), ("no", y)] = [("yes", x), ("no", y)] := by
  induction qs with
  | nil => rfl
  | cons q qs ih =>
      have hstep : writePair x y [("yes", x), ("no", y)] q = [("yes", x), ("no", y)] := by
        by_cases hq : q = "Flu" <;> simp [writePair, hq, mapInsert_pair_idem]
      rw [List.foldl_cons, hstep, ih]

lemma foldl_writePair_nil (x y : ℚ) (qs : List String) :
    qs.foldl (writePair x y) [] = if "Flu" ∈ qs then [("yes", x), ("no", y)] else [] := by
  induction qs with
  | nil => simp
  | cons q qs ih =>
      by_cases hq : q = "Flu"
      · have hstep : writePair x y [] q = [("yes", x), ("no", y)] := by
          simp [writePair, hq, mapInsert_pair_nil]
        rw [List.foldl_cons, hstep, foldl_writePair_fix]
        simp [hq]
      · have hstep : writePair x y [] q = [] := by simp [writePair, hq]
        have hmem : ("Flu" ∈ q :: qs) ↔ ("Flu" ∈ qs) := by
          simp [List.mem_cons]
          intro h
          exact absurd h.symm hq
        rw [List.foldl_cons, hstep, ih]
        by_cases hin : "Flu" ∈ qs <;> simp [hin, hmem]

lemma queryStep_eq_writePair (evidence : List (String × String)) :
    ∃ x y : ℚ, queryStep evidence = writePair x y ∧
      (if lookupKey evidence "Fever" = some "yes" then
         if lookupKey evidence "Cough" = some "yes" then
           [("yes", (32 : ℚ)/100), ("no", (68 : ℚ)/100)]
         else [("yes", (15 : ℚ)/100), ("no", (85 : ℚ)/100)]
       else [("yes", (5 : ℚ)/100), ("no", (95 : ℚ)/100)]) = [("yes", x), ("no", y)] := by
  by_cases h1 : lookupKey evidence "Fever" = some "yes"
  · by_cases h2 : lookupKey evidence "Cough" = some "yes"
    · exact ⟨32/100, 68/100,
        funext fun r => funext fun q => by simp [queryStep, writePair, h1, h2],
        by simp [h1, h2]⟩
    · exact ⟨15/100, 85/100,
        funext fun r => funext fun q => by simp [queryStep, writePair, h1, h2],
        by simp [h1, h2]⟩
  · exact ⟨5/100, 95/100,
      funext fun r => funext fun q => by simp [queryStep, writePair, h1],
      by simp [h1]⟩

end VerifyExamples

/-! Claim theorems. -/

/-- C1: `VariableElimination.Query` returns literal posterior probabilities
regardless of any real computation: whatever the underlying network, a query
containing `"Flu"` gets `{yes: 0.32, no: 0.68}` under evidence
`Fever=yes, Cough=yes`, `{yes: 0.15, no: 0.85}` under `Fever=yes` without
`Cough=yes`, and the prior `{yes: 0.05, no: 0.95}` otherwise; a query not
containing `"Flu"` gets the empty map. -/
theorem Query_returns_hardcoded_posteriors (ve : VerifyExamples.VariableElimination)
    (query : List String) (evidence : List (String × String)) :
    VerifyExamples.Query ve query evidence =
      if "Flu" ∈ query then
        if lookupKey evidence "Fever" = some "yes" then
          if lookupKey evidence "Cough" = some "yes" then
            [("yes", (32 : ℚ)/100), ("no", (68 : ℚ)/100)]
          else [("yes", (15 : ℚ)/100), ("no", (85 : ℚ)/100)]
        else [("yes", (5 : ℚ)/100), ("no", (95 : ℚ)/100)]
      else [] := by
  obtain ⟨x, y, hstep, hdist⟩ := VerifyExamples.queryStep_eq_writePair evidence
  rw [VerifyExamples.Query, hstep, VerifyExamples.foldl_writePair_nil, hdist]

namespace ComprehensiveVerify

lemma entropy_foldl (log : ℚ → ℚ) (l : List ℚ) : ∀ a : ℚ,
    l.foldl (fun h p => if 0 < p then h - p * log p else h) a =
      a - ((l.filter (fun p => decide (0 < p))).map (fun p => p * log p)).sum := by
  induction l with
  | nil => intro a; simp
  | cons p rest ih =>
      intro a
      by_cases hp : 0 < p
      · simp [List.foldl_cons, List.filter_cons, hp, ih]
        ring
      · simp [List.foldl_cons, List.filter_cons, hp, ih]

lemma sumLoop_eq (ps : List ℚ) : ∀ acc : ℚ,
    sumLoop ps acc =
      if ∀ p ∈ ps, 0 ≤ p ∧ p ≤ 1 then .ok (acc + ps.sum)
      else .error "probability must be between 0 and 1" := by
  induction ps with
  | nil => intro acc; simp [sumLoop]
  | cons p rest ih =>
      intro acc
      by_cases hp : p < 0 ∨ 1 < p
      · have hnp : ¬(0 ≤ p ∧ p ≤ 1) := by
          rcases hp with h | h
          · exact fun hc => absurd hc.1 (not_le.mpr h)
          · exact fun hc => absurd hc.2 (not_le.mpr h)
        simp [sumLoop, Probability.Validate, hp, List.forall_mem_cons, hnp]
      · have hpo : 0 ≤ p ∧ p ≤ 1 :=
          ⟨le_of_not_lt fun h => hp (Or.inl h), le_of_not_lt fun h => hp (Or.inr h)⟩
        have hv : Probability.Validate p = none := by simp [Probability.Validate, hp]
        simp [sumLoop, hv, ih, List.forall_mem_cons, hpo, add_assoc]

end ComprehensiveVerify

/-- C5: `Categorical.Entropy` equals the negated sum of `p * log p` over
exactly the strictly positive entries of `Probs` (stated for every
logarithm function, hence for `math.Log`). -/
theorem Entropy_eq_neg_sum_over_positive_entries (log : ℚ → ℚ)
    (c : ComprehensiveVerify.Categorical) :
    ComprehensiveVerify.Entropy log c =
      -(((c.Probs.filter (fun p => decide (0 < p))).map (fun p => p * log p)).sum) := by
  simpa [ComprehensiveVerify.Entropy] using
    ComprehensiveVerify.entropy_foldl log c.Probs 0

/-- C2: `Node.SetCPT` returns nil exactly when the probabilities list has
the same length as the node's state list, every entry lies in `[0,1]`, and
the sum is within `1e-6` of `1`; the CPT gains the binding exactly on
success and is untouched on error. -/
theorem SetCPT_validates_and_stores (n : ComprehensiveVerify.Node) (k : String)
    (ps : List ℚ) :
    ((ComprehensiveVerify.SetCPT n k ps).1 = none ↔
      ps.length = n.States.length ∧ (∀ p ∈ ps, 0 ≤ p ∧ p ≤ 1) ∧
        |ps.sum - 1| ≤ 1/1000000) ∧
    (ComprehensiveVerify.SetCPT n k ps).2 =
      (if (ComprehensiveVerify.SetCPT n k ps).1 = none
       then { n with CPT := mapInsert n.CPT k ps } else n) := by
  unfold ComprehensiveVerify.SetCPT
  rw [ComprehensiveVerify.sumLoop_eq]
  by_cases hlen : ps.length = n.States.length
  · rw [if_neg (not_not_intro hlen)]
    by_cases hall : ∀ p ∈ ps, 0 ≤ p ∧ p ≤ 1
    · rw [if_pos hall]
      by_cases hsum : |ps.sum - 1| ≤ 1/1000000
      · have h1 : ¬(1/1000000 < |0 + ps.sum - 1|) := by
          rw [zero_add]; exact not_lt.mpr hsum
        simp only [gt_iff_lt, h1, if_false]
        simp [hlen, hall, hsum]
        exact ⟨hall, by rw [← one_div]; exact hsum⟩
      · have h1 : 1/1000000 < |0 + ps.sum - 1| := by
          rw [zero_add]; exact lt_of_not_le hsum
        simp only [gt_iff_lt, h1, if_true]
        simp [hsum]
        intro _ _
        rw [← one_div]
        exact lt_of_not_le hsum
    · rw [if_neg hall]
      simp [hall]
  · rw [if_pos hlen]
    simp [hlen]

namespace ComprehensiveVerify

lemma addAll_spec (items : List (List ℚ)) : ∀ (c : ℤ) (l : List (List ℚ)),
    1 ≤ c → l.length ≤ c.toNat →
    addAll { Capacity := c, Contents := l } items =
      some { Capacity := c, Contents := (l ++ items).drop ((l ++ items).length - c.toNat) } := by
  induction items with
  | nil =>
      intro c l hc hl
      have h0 : l.length - c.toNat = 0 := by omega
      simp [addAll, h0]
  | cons i is ih =>
      intro c l hc hl
      have hcn : (c.toNat : ℤ) = c := Int.toNat_of_nonneg (by omega)
      by_cases hfull : (l.length : ℤ) ≥ c
      · have hlen : l.length = c.toNat := by omega
        cases l with
        | nil =>
            exfalso
            have : c.toNat = 0 := hlen.symm
            omega
        | cons x xs =>
            have hstep : AddItem { Capacity := c, Contents := x :: xs } i =
                some { Capacity := c, Contents := xs ++ [i] } := by
              unfold AddItem
              rw [if_pos hfull]
            rw [addAll, hstep]
            show addAll { Capacity := c, Contents := xs ++ [i] } is = _
            have hxs : (xs ++ [i]).length ≤ c.toNat := by
              simp at hlen ⊢; omega
            rw [ih c (xs ++ [i]) hc hxs]
            have harr : (xs ++ [i]) ++ is = xs ++ i :: is := by
              simp [List.append_assoc]
            have hidx : ((x :: xs) ++ i :: is).length - c.toNat =
                (((xs ++ [i]) ++ is).length - c.toNat) + 1 := by
              simp at hlen ⊢; omega
            rw [hidx]
            have hconsdrop : ((x :: xs) ++ i :: is).drop
                ((((xs ++ [i]) ++ is).length - c.toNat) + 1) =
                (xs ++ i :: is).drop (((xs ++ [i]) ++ is).length - c.toNat) := by
              rfl
            rw [hconsdrop, harr]
      · have hstep : AddItem { Capacity := c, Contents := l } i =
            some { Capacity := c, Contents := l ++ [i] } := by
          unfold AddItem
          rw [if_neg hfull]
        rw [addAll, hstep]
        show addAll { Capacity := c, Contents := l ++ [i] } is = _
        have hli : (l ++ [i]).length ≤ c.toNat := by
          simp; omega
        rw [ih c (l ++ [i]) hc hli]
        have harr : (l ++ [i]) ++ is = l ++ i :: is := by
          simp [List.append_assoc]
        rw [harr]

end ComprehensiveVerify

/-- C4: starting from `NewWorkingMemory c` with `c ≥ 1`, any sequence of
`AddItem` calls succeeds (never panics, always returning nil), and
afterwards `Contents` holds exactly the most recent `min n c` of the `n`
added items, in insertion order, so its length never exceeds `c`. -/
theorem workingMemory_fifo (c : ℤ) (items : List (List ℚ)) (hc : 1 ≤ c) :
    ComprehensiveVerify.addAll (ComprehensiveVerify.NewWorkingMemory c) items =
      some { Capacity := c, Contents := items.drop (items.length - c.toNat) } ∧
    (items.drop (items.length - c.toNat)).length = min items.length c.toNat := by
  constructor
  · have h := ComprehensiveVerify.addAll_spec items c [] hc (by simp)
    simpa [ComprehensiveVerify.NewWorkingMemory] using h
  · rw [List.length_drop]
    omega

/-- Witness for C4 at capacity 2 and three insertions: the first item is
evicted and the last two remain in order. -/
theorem workingMemory_fifo_witness :
    ComprehensiveVerify.addAll (ComprehensiveVerify.NewWorkingMemory 2) [[1], [2], [3]] =
      some { Capacity := 2, Contents := [[2], [3]] } := by
  have h := (workingMemory_fifo 2 [[1], [2], [3]] (by norm_num)).1
  simpa using h

/-- C9: `AddItem` is total only when the capacity is at least 1: with
capacity `c ≤ 0` the very first call hits the eviction branch on an empty
`Contents`, whose `Contents[1:]` panics (modelled as `none`); with
`c ≥ 1` no sequence of calls ever panics. -/
theorem addItem_total_iff_positive_capacity (c : ℤ) :
    (c ≤ 0 → ∀ item : List ℚ,
      ComprehensiveVerify.AddItem (ComprehensiveVerify.NewWorkingMemory c) item = none) ∧
    (1 ≤ c → ∀ items : List (List ℚ),
      (ComprehensiveVerify.addAll (ComprehensiveVerify.NewWorkingMemory c) items).isSome) := by
  constructor
  · intro hc item
    simp [ComprehensiveVerify.AddItem, ComprehensiveVerify.NewWorkingMemory]
    omega
  · intro hc items
    have h := ComprehensiveVerify.addAll_spec items c [] hc (by simp)
    rw [ComprehensiveVerify.NewWorkingMemory, h]
    rfl

/-- Witness for C9: capacity 0 panics on the first insertion; capacity 1
survives two insertions. -/
theorem addItem_total_iff_positive_capacity_witness :
    ComprehensiveVerify.AddItem (ComprehensiveVerify.NewWorkingMemory 0) [1/2] = none ∧
    (ComprehensiveVerify.addAll (ComprehensiveVerify.NewWorkingMemory 1) [[1/2], [1/3]]).isSome :=
  ⟨(addItem_total_iff_positive_capacity 0).1 (by norm_num) _,
   (addItem_total_iff_positive_capacity 1).2 (by norm_num) _⟩

/-- C3 counterexample: `Categorical.LogProb` is itself typed `Probability`
yet returns `-1e9` on an impossible outcome (whatever the logarithm), so
not every `Probability` value the operations return lies in `[0,1]`. -/
theorem logProb_value_outside_unit_interval :
    ComprehensiveVerify.LogProb (fun q => q) (ComprehensiveVerify.NewCategorical []) 0 =
      -1000000000 ∧
    ¬(0 ≤ ComprehensiveVerify.LogProb (fun q => q) (ComprehensiveVerify.NewCategorical []) 0) := by
  have h : ComprehensiveVerify.LogProb (fun q => q) (ComprehensiveVerify.NewCategorical []) 0 =
      -1000000000 := by
    simp [ComprehensiveVerify.LogProb, ComprehensiveVerify.Prob,
      ComprehensiveVerify.NewCategorical]
  refine ⟨h, ?_⟩
  rw [h]
  norm_num

/-- C3 (amended): `Probability.Validate` returns nil exactly on values in
`[0,1]`, and `Categorical.Prob` stays inside `[0,1]` whenever every stored
entry does; `LogProb` (and `Entropy`) may return values outside `[0,1]`. -/
theorem probability_validate_and_prob_bounds :
    (∀ p : ℚ, ComprehensiveVerify.Probability.Validate p = none ↔ 0 ≤ p ∧ p ≤ 1) ∧
    (∀ (c : ComprehensiveVerify.Categorical) (outcome : ℤ),
      (∀ p ∈ c.Probs, 0 ≤ p ∧ p ≤ 1) →
      0 ≤ ComprehensiveVerify.Prob c outcome ∧ ComprehensiveVerify.Prob c outcome ≤ 1) := by
  constructor
  · intro p
    simp [ComprehensiveVerify.Probability.Validate, not_or, not_lt]
  · intro c outcome h
    unfold ComprehensiveVerify.Prob
    split
    · next hin =>
        have hlt : outcome.toNat < c.Probs.length := by omega
        have hmem : c.Probs.getD outcome.toNat 0 ∈ c.Probs := by
          rw [List.getD_eq_getElem _ _ hlt]
          exact List.getElem_mem hlt
        exact h _ hmem
    · norm_num

/-- Witness for C3 (amended): a concrete in-range value validates, and a
concrete two-point distribution with in-range entries yields an in-range
probability. -/
theorem probability_validate_and_prob_bounds_witness :
    (ComprehensiveVerify.Probability.Validate (1/2) = none) ∧
    (0 ≤ ComprehensiveVerify.Prob (ComprehensiveVerify.NewCategorical [1/2, 1/2]) 0 ∧
      ComprehensiveVerify.Prob (ComprehensiveVerify.NewCategorical [1/2, 1/2]) 0 ≤ 1) :=
  ⟨(probability_validate_and_prob_bounds.1 (1/2)).mpr (by norm_num),
   probability_validate_and_prob_bounds.2 (ComprehensiveVerify.NewCategorical [1/2, 1/2]) 0
     (by intro p hp; simp [ComprehensiveVerify.NewCategorical] at hp; subst hp; norm_num)⟩

/-- C6 counterexample: on the list `[0.5, 0.3]` (sum `0.8`) over two
states, `comprehensive_verify.go` rejects and leaves the CPT empty while
`verify_examples.go` accepts and stores the list, so the two `SetCPT`
functions differ. -/
theorem setCPT_implementations_differ :
    ComprehensiveVerify.SetCPT
        (ComprehensiveVerify.NewNode "TestNode" ["true", "false"]) "" [1/2, 3/10] ≠
    VerifyExamples.SetCPT
        (ComprehensiveVerify.NewNode "TestNode" ["true", "false"]) "" [1/2, 3/10] := by
  have hR : (VerifyExamples.SetCPT
      (ComprehensiveVerify.NewNode "TestNode" ["true", "false"]) "" [1/2, 3/10]).1 = none := rfl
  have habs : (1:ℚ)/1000000 < |1/5| := by
    rw [abs_of_pos] <;> norm_num
  have hL : (ComprehensiveVerify.SetCPT
      (ComprehensiveVerify.NewNode "TestNode" ["true", "false"]) "" [1/2, 3/10]).1 =
      some "probabilities must sum to 1" := by
    simp [ComprehensiveVerify.SetCPT, ComprehensiveVerify.sumLoop,
      ComprehensiveVerify.Probability.Validate, ComprehensiveVerify.NewNode, mapInsert, habs]
    norm_num [habs]
  intro h
  rw [h, hR] at hL
  exact Option.noConfusion hL

/-- C6 (amended): the `SetCPT` of `comprehensive_verify.go` and the one of
the simple verification script compute the same function (same
accept/reject result and same CPT state on every input), but the `SetCPT`
of `verify_examples.go` performs no validation: it returns nil and stores
the list unconditionally, so it agrees with the other two only on inputs
they accept. -/
theorem setCPT_duplicates_agreement :
    (∀ (n : ComprehensiveVerify.Node) (k : String) (ps : List ℚ),
      ComprehensiveVerify.SetCPT n k ps = SimpleVerification.SetCPT n k ps) ∧
    (∀ (n : ComprehensiveVerify.Node) (k : String) (ps : List ℚ),
      VerifyExamples.SetCPT n k ps = (none, { n with CPT := mapInsert n.CPT k ps })) := by
  constructor
  · intro n k ps
    have hs : ∀ (l : List ℚ) (acc : ℚ),
        ComprehensiveVerify.sumLoop l acc = SimpleVerification.sumLoop l acc := by
      intro l
      induction l with
      | nil => intro acc; rfl
      | cons p rest ih =>
          intro acc
          simp only [ComprehensiveVerify.sumLoop, SimpleVerification.sumLoop,
            ComprehensiveVerify.Probability.Validate, SimpleVerification.Probability.Validate]
          by_cases hp : p < 0 ∨ p > 1
          · simp [hp]
          · simp [hp, ih]
    simp only [ComprehensiveVerify.SetCPT, SimpleVerification.SetCPT, hs]
  · intro n k ps
    rfl

namespace TestRunner

lemma passedTests_eq_length_iff (f : String → TestResult) :
    passedTests f = modules.length ↔ ∀ m ∈ modules, (f m).Passed = true := by
  rw [passedTests]
  rw [show modules.length = (modules.map f).length from (List.length_map _ _).symm]
  rw [List.countP_eq_length]
  constructor
  · intro h m hm
    exact h (f m) (List.mem_map_of_mem f hm)
  · intro h r hr
    obtain ⟨m, hm, rfl⟩ := List.mem_map.mp hr
    exact h m hm

end TestRunner

/-- C7: the comprehensive test runner prints one pass/fail line per
module, exits with status 1 exactly when some module's test command
reports failure, and prints the success summary and terminates with
status 0 exactly when every module passes. -/
theorem runner_exit_iff_module_failure (f : String → TestRunner.TestResult) :
    (TestRunner.statusLines f).length = TestRunner.modules.length ∧
    (TestRunner.runnerExitCode f = 1 ↔ ∃ m ∈ TestRunner.modules, (f m).Passed = false) ∧
    (TestRunner.runnerExitCode f = 0 ↔ ∀ m ∈ TestRunner.modules, (f m).Passed = true) ∧
    (TestRunner.printsSuccessSummary f = true ↔ TestRunner.runnerExitCode f = 0) := by
  have hkey := TestRunner.passedTests_eq_length_iff f
  refine ⟨by simp [TestRunner.statusLines], ?_, ?_, ?_⟩
  · rw [TestRunner.runnerExitCode]
    by_cases h : TestRunner.passedTests f = TestRunner.modules.length
    · simp only [h, if_true]
      constructor
      · intro h01
        exact absurd h01 (by norm_num)
      · rintro ⟨m, hm, hfail⟩
        have := (hkey.mp h) m hm
        rw [hfail] at this
        exact Bool.noConfusion this
    · simp only [h, if_false]
      constructor
      · intro _
        have hnall : ¬∀ m ∈ TestRunner.modules, (f m).Passed = true := fun hc => h (hkey.mpr hc)
        push_neg at hnall
        obtain ⟨m, hm, hf⟩ := hnall
        exact ⟨m, hm, by simpa using hf⟩
      · intro _
        trivial
  · rw [TestRunner.runnerExitCode]
    by_cases h : TestRunner.passedTests f = TestRunner.modules.length
    · simp only [h, if_true]
      simpa using hkey.mp h
    · simp only [h, if_false]
      constructor
      · intro h10
        exact absurd h10 (by norm_num)
      · intro hall
        exact absurd (hkey.mpr hall) h
  · rw [TestRunner.printsSuccessSummary, TestRunner.runnerExitCode]
    by_cases h : TestRunner.passedTests f = TestRunner.modules.length <;> simp [h]

/-- C8: collecting the per-module results of the goroutine fan-out in any
channel delivery order yields exactly the sequential results up to
permutation. -/
theorem parallel_results_perm_sequential (f : String → TestRunner.TestResult)
    (mods arrival : List String) (h : arrival.Perm mods) :
    (TestRunner.runParallelTests f mods arrival).Perm
      (TestRunner.runSequentialTests f mods) :=
  h.map f

/-- Witness for C8: with every module passing and the deliveries arriving
in reverse order, the parallel results are a permutation of the
sequential ones. -/
theorem parallel_results_perm_sequential_witness :
    (TestRunner.runParallelTests (fun m => ⟨m, true, "", 0⟩)
        TestRunner.modules TestRunner.modules.reverse).Perm
      (TestRunner.runSequentialTests (fun m => ⟨m, true, "", 0⟩) TestRunner.modules) :=
  parallel_results_perm_sequential (fun m => ⟨m, true, "", 0⟩)
    TestRunner.modules TestRunner.modules.reverse (List.reverse_perm TestRunner.modules)
